import Mathlib

/-!
Shallow embedding of the mkvquickplay desktop utility (cross-platform Python
implementation) and proofs about its specification.

Conventions of the embedding:
* Python strings are Lean `String`; character-level operations are carried out
  on `String.data` (`List Char`) so that all definitions evaluate inside the
  kernel. Case folding is ASCII, which matches every comparison the program
  performs (its allow-list and URI markers are ASCII).
* The filesystem is an explicit value: a list of regular files, a list of
  directories, and a listing function giving the children a directory
  enumeration yields (the order of `Path.iterdir` is arbitrary, so it is a
  parameter).
* The player process controller (`mpv_launcher.py`) is embedded as a state
  machine driven by events: a `play` request (parameterised by whether the
  binary was found, whether the spawn succeeded, and the fresh process
  identity), a `stop` request, and the completion of the exit-watch body for
  a given process identity. Invocations of the registered `on_close`
  callback are recorded in a log.
-/

/-- Lexicographic comparison of character lists by code point. Models the
Python string order used by `sorted(..., key=str.lower)` in
`video_utils.get_video_files_in_directory`. -/
def lexLeChars : List Char → List Char → Bool
  | [], _ => true
  | _ :: _, [] => false
  | a :: as, b :: bs => if a < b then true else if b < a then false else lexLeChars as bs

/-- Models Python `str.lower()` (ASCII case folding). -/
def pyLower (s : String) : String := ⟨s.data.map Char.toLower⟩

/-- Final path component. Models `pathlib.PurePath.name` for normalized paths
without trailing slashes. -/
def pyName (p : String) : String :=
  ⟨(p.data.reverse.takeWhile (fun c => c ≠ '/')).reverse⟩

/-- Parent directory. Models `pathlib.PurePath.parent` for normalized paths
without trailing slashes. -/
def pyParent (p : String) : String :=
  let cs := p.data
  if cs.contains '/' then
    let i := cs.length - 1 - cs.reverse.indexOf '/'
    if i = 0 then "/" else ⟨cs.take i⟩
  else "."

/-- Extension of the final path component. Models `pathlib.PurePath.suffix`:
the final component from its last dot onward, empty when there is no dot or
the dot is leading or trailing. -/
def pySuffix (p : String) : String :=
  let n := (pyName p).data
  if n.contains '.' then
    let i := n.length - 1 - n.reverse.indexOf '.'
    if 0 < i ∧ i < n.length - 1 then ⟨n.drop i⟩ else ""
  else ""

/-- The allow-list `SUPPORTED_EXTENSIONS` of `video_utils.py` (a Python set;
only membership is used, so a list suffices). -/
def SUPPORTED_EXTENSIONS : List String :=
  [".mkv", ".avi", ".webm", ".mp4", ".m4v", ".mov", ".wmv", ".flv", ".ts", ".mts", ".m2ts"]

/-- Embeds `video_utils.is_video_file`: the lowercased suffix is in the allow-list. -/
def is_video_file (path : String) : Bool :=
  SUPPORTED_EXTENSIONS.contains (pyLower (pySuffix path))

/-- The filesystem as seen by the program: regular files, directories, and the
listing a directory enumeration produces (full child paths, arbitrary order). -/
structure FileSystem where
  files : List String
  dirs : List String
  entries : String → List String

/-- Models `Path.is_file`. -/
def FileSystem.isFile (fs : FileSystem) (p : String) : Bool := fs.files.contains p

/-- Models `Path.is_dir`. -/
def FileSystem.isDir (fs : FileSystem) (p : String) : Bool := fs.dirs.contains p

/-- Models `Path.exists` and `os.path.exists`. -/
def FileSystem.pathExists (fs : FileSystem) (p : String) : Bool :=
  fs.isFile p || fs.isDir p

/-- The sort relation of `get_video_files_in_directory`: comparison of full
paths after ASCII lowercasing, `sorted(videos, key=lambda x: x.lower())`. -/
def lowerKeyLe (a b : String) : Prop :=
  lexLeChars (pyLower a).data (pyLower b).data = true

instance : DecidableRel lowerKeyLe :=
  fun _ _ => inferInstanceAs (Decidable (_ = true))

/-- Embeds `video_utils.get_video_files_in_directory`: empty unless the directory
exists, otherwise the regular-file children whose lowercased suffix is in the
allow-list, sorted case-insensitively by full path. -/
def get_video_files_in_directory (fs : FileSystem) (directory : String) : List String :=
  if fs.isDir directory then
    List.insertionSort lowerKeyLe
      ((fs.entries directory).filter
        (fun f => fs.isFile f && SUPPORTED_EXTENSIONS.contains (pyLower (pySuffix f))))
  else []

/-- Embeds `video_utils.get_sibling_videos`: empty when the current file does not
exist, otherwise the video files of its parent directory. -/
def get_sibling_videos (fs : FileSystem) (current_file : String) : List String :=
  if fs.pathExists current_file then
    get_video_files_in_directory fs (pyParent current_file)
  else []

/-- Embeds `video_utils.get_next_video`: wraparound step `+1` from the position of
the current file in its sibling list; the `except ValueError` branch (current
file not in the list) falls back to the first sibling. -/
def get_next_video (fs : FileSystem) (current_file : String) : Option String :=
  let siblings := get_sibling_videos fs current_file
  if siblings.isEmpty then none
  else if siblings.contains current_file then
    siblings[(siblings.indexOf current_file + 1) % siblings.length]?
  else siblings.head?

/-- Embeds `video_utils.get_previous_video`: wraparound step `-1` (Python signed
integer modulus, hence the `Int` arithmetic); the `except ValueError` branch
falls back to the last sibling. -/
def get_previous_video (fs : FileSystem) (current_file : String) : Option String :=
  let siblings := get_sibling_videos fs current_file
  if siblings.isEmpty then none
  else if siblings.contains current_file then
    siblings[((((siblings.indexOf current_file : Int) - 1) % (siblings.length : Int)).toNat)]?
  else siblings.getLast?

/-- State of `MPVLauncher` (`mpv_launcher.py`): the tracked process (its
identity, `None` when idle), the currently playing file, and a log recording
one entry per invocation of the registered `on_close` callback (the entry is
the identity of the process whose exit-watch made the call). The application
(`app.py`) always registers `on_close`, so the embedding records every
guarded callback invocation. -/
structure MState where
  process : Option Nat
  currentFile : Option String
  closeLog : List Nat
deriving DecidableEq

/-- The controller state at construction. -/
def initState : MState := { process := none, currentFile := none, closeLog := [] }

/-- Embeds `MPVLauncher.stop`: a no-op when no process is tracked; otherwise the
tracked process reference and the current file are cleared immediately (the
termination signals sent afterwards touch only the external process). -/
def mstop (s : MState) : MState :=
  if s.process = none then s else { s with process := none, currentFile := none }

/-- Embeds `MPVLauncher.play`: stop any existing playback first, then locate the
binary (`found`); on failure return `false`. Otherwise record the current
file, attempt the spawn (`spawnOk`, the fresh process identity is `pid`);
a spawn exception clears the current file and returns `false`. -/
def mplay (s : MState) (path : String) (found spawnOk : Bool) (pid : Nat) :
    MState × Bool :=
  let s1 := mstop s
  if found then
    let s2 := { s1 with currentFile := some path }
    if spawnOk then ({ s2 with process := some pid }, true)
    else ({ s2 with currentFile := none }, false)
  else (s1, false)

/-- Body of `MPVLauncher._monitor_process` at the moment `process.wait()`
returns for the session with identity `pid`: only when that process is still
the tracked one are the fields cleared and `on_close` invoked. -/
def mwatch (s : MState) (pid : Nat) : MState :=
  if s.process = some pid then
    { process := none, currentFile := none, closeLog := s.closeLog ++ [pid] }
  else s

/-- The events that mutate the controller state: a `play` request with its
environment outcomes, a `stop` request, and the completion of the exit-watch
of the session with the given process identity. -/
inductive LEvent where
  | play (path : String) (found : Bool) (spawnOk : Bool) (pid : Nat)
  | stop
  | exitWatch (pid : Nat)
deriving DecidableEq

/-- One controller step. -/
def mstep (s : MState) : LEvent → MState
  | .play path found spawnOk pid => (mplay s path found spawnOk pid).1
  | .stop => mstop s
  | .exitWatch pid => mwatch s pid

/-- A run of the controller over a sequence of events. -/
def mrun (s : MState) (tr : List LEvent) : MState := tr.foldl mstep s

/-- Process identities of the `play` events of a trace. -/
def playPids : List LEvent → List Nat
  | [] => []
  | .play _ _ _ pid :: tr => pid :: playPids tr
  | _ :: tr => playPids tr

/-- Process identities of the `exitWatch` events of a trace. -/
def watchPids : List LEvent → List Nat
  | [] => []
  | .exitWatch pid :: tr => pid :: watchPids tr
  | _ :: tr => watchPids tr

/-- Keys as the hotkey listener distinguishes them (`hotkey_manager.py`,
built on pynput): the control modifiers, the named special keys the code
tests, generic key codes carrying an optional character and an optional
virtual key code, and anything else. -/
inductive PKey where
  | ctrlL
  | ctrlR
  | ctrlGen
  | space
  | up
  | down
  | esc
  | keyCode (ch : Option Char) (vk : Option Nat)
  | otherKey
deriving DecidableEq

/-- The signals a key press can emit, named as the application wires them:
the toggle hotkey, navigate-previous (arrow up), navigate-next (arrow down),
and close (escape). -/
inductive HSignal where
  | toggleSig
  | navigatePrevious
  | navigateNext
  | closeSig
deriving DecidableEq

/-- State of `HotkeyManager`: the externally set preview-active flag, the
control-held flag, and whether each callback slot is registered. -/
structure HMState where
  isPreviewActive : Bool
  ctrlPressed : Bool
  hasOnHotkey : Bool
  hasOnUpArrow : Bool
  hasOnDownArrow : Bool
  hasOnEscape : Bool
deriving DecidableEq

/-- The keys `_on_key_press` treats as control modifiers. -/
def isCtrlKey : PKey → Bool
  | .ctrlL | .ctrlR | .ctrlGen => true
  | _ => false

/-- The grave-accent character tested by `_is_hotkey_pressed` (code point 96). -/
def graveChar : Char := Char.ofNat 96

/-- Embeds `HotkeyManager._is_hotkey_pressed`: control must be held; then space, or
a key code with virtual key 32, the grave character, or virtual key 192 or
220. -/
def is_hotkey_pressed (s : HMState) (k : PKey) : Bool :=
  if !s.ctrlPressed then false
  else
    match k with
    | .space => true
    | .keyCode ch vk =>
        vk == some 32 || ch == some graveChar || vk == some 192 || vk == some 220
    | _ => false

/-- Embeds `HotkeyManager._on_key_press`: track the control modifier; dispatch the
toggle hotkey when its combination is pressed; otherwise, only while the
preview-active flag is set, arrow up, arrow down and escape dispatch their
registered callbacks. Returns the new state and the emitted signal. -/
def on_key_press (s : HMState) (k : PKey) : HMState × Option HSignal :=
  if isCtrlKey k then ({ s with ctrlPressed := true }, none)
  else if is_hotkey_pressed s k then
    (s, if s.hasOnHotkey then some .toggleSig else none)
  else if s.isPreviewActive then
    if k = .up then (s, if s.hasOnUpArrow then some .navigatePrevious else none)
    else if k = .down then (s, if s.hasOnDownArrow then some .navigateNext else none)
    else if k = .esc then (s, if s.hasOnEscape then some .closeSig else none)
    else (s, none)
  else (s, none)

/-- Environment of a playback attempt: whether the player binary is found,
whether the spawn succeeds, and the fresh process identity. -/
structure LaunchEnv where
  mpvFound : Bool
  spawnOk : Bool
  newPid : Nat
deriving DecidableEq

/-- State of the application coordinator (`app.py`): its own current file,
the preview-active flag it pushes to the hotkey manager, the tray activity
flag, and the launcher state. -/
structure AppState where
  currentFile : Option String
  previewActive : Bool
  trayActive : Bool
  launcher : MState
deriving DecidableEq

/-- Embeds `MKVQuickPlayApp._play_video`: ignore non-video paths; ignore the request
when the binary cannot be found; otherwise set the current file, call
`MPVLauncher.play`, and on success mark the tray and preview flags active. -/
def play_video (env : LaunchEnv) (a : AppState) (filepath : String) : AppState :=
  if !is_video_file filepath then a
  else if !env.mpvFound then a
  else
    let a1 := { a with currentFile := some filepath }
    let pr := mplay a1.launcher filepath env.mpvFound env.spawnOk env.newPid
    if pr.2 then { a1 with launcher := pr.1, trayActive := true, previewActive := true }
    else { a1 with launcher := pr.1 }

/-- Embeds `MKVQuickPlayApp._navigate_next`: a no-op without a current file;
otherwise play the next sibling unless it equals the current file. -/
def navigate_next (fs : FileSystem) (env : LaunchEnv) (a : AppState) : AppState :=
  match a.currentFile with
  | none => a
  | some cur =>
    match get_next_video fs cur with
    | none => a
    | some nf => if nf ≠ cur then play_video env a nf else a

/-- Embeds `MKVQuickPlayApp._navigate_previous`: a no-op without a current file;
otherwise play the previous sibling unless it equals the current file. -/
def navigate_previous (fs : FileSystem) (env : LaunchEnv) (a : AppState) : AppState :=
  match a.currentFile with
  | none => a
  | some cur =>
    match get_previous_video fs cur with
    | none => a
    | some pf => if pf ≠ cur then play_video env a pf else a

/-- Value of a hexadecimal digit character; models the digit table used by
`urllib.parse.unquote`. -/
def hexDigitVal (c : Char) : Nat :=
  if '0' ≤ c ∧ c ≤ '9' then c.toNat - 48
  else if 'a' ≤ c ∧ c ≤ 'f' then c.toNat - 87
  else if 'A' ≤ c ∧ c ≤ 'F' then c.toNat - 55
  else 0

/-- Whether a character is a hexadecimal digit. -/
def isHexDigitB (c : Char) : Bool :=
  decide (('0' ≤ c ∧ c ≤ '9') ∨ ('a' ≤ c ∧ c ≤ 'f') ∨ ('A' ≤ c ∧ c ≤ 'F'))

/-- Percent-decoding at character level. Models `urllib.parse.unquote` for
ASCII percent-escapes: a percent sign followed by two hexadecimal digits
becomes the encoded character, anything else is kept literally. -/
def unquoteChars : List Char → List Char
  | [] => []
  | '%' :: a :: b :: rest =>
    if isHexDigitB a && isHexDigitB b then
      Char.ofNat (16 * hexDigitVal a + hexDigitVal b) :: unquoteChars rest
    else '%' :: unquoteChars (a :: b :: rest)
  | c :: rest => c :: unquoteChars rest

/-- Models Python `str.strip()` for the whitespace characters the program can
meet (ASCII whitespace). -/
def pyStrip (cs : List Char) : List Char :=
  ((cs.dropWhile Char.isWhitespace).reverse.dropWhile Char.isWhitespace).reverse

/-- Models Python `str.split` with separator a newline: the segments between
newline characters, empties preserved. -/
def splitLinesChars : List Char → List (List Char)
  | [] => [[]]
  | c :: rest =>
    let r := splitLinesChars rest
    if c = '\n' then [] :: r
    else
      match r with
      | h :: t => (c :: h) :: t
      | [] => [[c]]

/-- Whether `cs` starts with `pre`, by characters. Models `str.startswith`. -/
def startsWithChars : List Char → List Char → Bool
  | _, [] => true
  | [], _ :: _ => false
  | c :: cs, p :: ps => c == p && startsWithChars cs ps

/-- The parsing loop of
`LinuxSelectionManager._get_selection_via_clipboard`: per line, strip it;
skip it when empty; when it starts with `file://`, append the percent-decoded
remainder (no existence check); otherwise append the line only when it is an
existing filesystem path. -/
def parseLines (fs : FileSystem) : List (List Char) → List String
  | [] => []
  | line :: rest =>
    let l := pyStrip line
    if l = [] then parseLines fs rest
    else if startsWithChars l "file://".data then
      (⟨unquoteChars (l.drop 7)⟩ : String) :: parseLines fs rest
    else if fs.pathExists ⟨l⟩ then (⟨l⟩ : String) :: parseLines fs rest
    else parseLines fs rest

/-- Result of `_get_selection_via_clipboard` as a function of the probed
clipboard content (`none` when the read command failed): an empty or absent
clipboard yields no paths, otherwise the newline-separated content is
parsed. -/
def getSelectionViaClipboard (fs : FileSystem) (clipboard : Option String) :
    List String :=
  match clipboard with
  | none => []
  | some c => if c = "" then [] else parseLines fs (splitLinesChars c.data)

/-- Concrete directory for the `listVideoFiles` example of the spec:
`/d` contains files `b.mkv`, `A.mp4`, `c.txt`. -/
def exFS5 : FileSystem :=
  { files := ["/d/b.mkv", "/d/A.mp4", "/d/c.txt"]
    dirs := ["/d"]
    entries := fun d => if d = "/d" then ["/d/b.mkv", "/d/A.mp4", "/d/c.txt"] else [] }

/-- Concrete directory for the wraparound example of the spec: `/d` contains
`a.mp4`, `b.mp4`, `c.mp4`. -/
def exFS6 : FileSystem :=
  { files := ["/d/a.mp4", "/d/b.mp4", "/d/c.mp4"]
    dirs := ["/d"]
    entries := fun d => if d = "/d" then ["/d/a.mp4", "/d/b.mp4", "/d/c.mp4"] else [] }

/-- Concrete filesystem in which `/d/b.mkv` has been deleted while its parent
directory `/d` still contains the video `/d/a.mkv`. -/
def fsC1 : FileSystem :=
  { files := ["/d/a.mkv"]
    dirs := ["/d"]
    entries := fun d => if d = "/d" then ["/d/a.mkv"] else [] }

/-- The empty filesystem. -/
def fsEmpty : FileSystem := { files := [], dirs := [], entries := fun _ => [] }

/-- A controller state with a tracked playback. -/
def c2State : MState :=
  { process := some 5, currentFile := some "/v/a.mkv", closeLog := [] }

/-- Totality of the lexicographic comparison. -/
def lexLeChars_total_pf :
    ∀ as bs : List Char, lexLeChars as bs = true ∨ lexLeChars bs as = true := by
  intro as
  induction as with
  | nil => intro bs; left; rfl
  | cons a as ih =>
    intro bs
    cases bs with
    | nil => right; rfl
    | cons b bs =>
      rcases lt_trichotomy a b with h | h | h
      · left; simp [lexLeChars, h]
      · subst h
        rcases ih bs with h2 | h2
        · left; simp [lexLeChars, lt_self_iff_false, h2]
        · right; simp [lexLeChars, lt_self_iff_false, h2]
      · right; simp [lexLeChars, h]

/-- Transitivity of the lexicographic comparison. -/
def lexLeChars_trans_pf :
    ∀ as bs cs : List Char, lexLeChars as bs = true → lexLeChars bs cs = true →
      lexLeChars as cs = true := by
  intro as
  induction as with
  | nil => intro bs cs _ _; rfl
  | cons a as ih =>
    intro bs cs h1 h2
    cases bs with
    | nil => simp [lexLeChars] at h1
    | cons b bs =>
      cases cs with
      | nil => simp [lexLeChars] at h2
      | cons c cs =>
        by_cases hab : a < b
        · by_cases hbc : b < c
          · simp [lexLeChars, lt_trans hab hbc]
          · by_cases hcb : c < b
            · simp [lexLeChars, hbc, hcb] at h2
            · have hbceq : b = c := le_antisymm (not_lt.1 hcb) (not_lt.1 hbc)
              subst hbceq
              simp [lexLeChars, hab]
        · by_cases hba : b < a
          · simp [lexLeChars, hab, hba] at h1
          · have habeq : a = b := le_antisymm (not_lt.1 hba) (not_lt.1 hab)
            subst habeq
            simp [lexLeChars, lt_self_iff_false] at h1
            by_cases hac : a < c
            · simp [lexLeChars, hac]
            · by_cases hca : c < a
              · simp [lexLeChars, hac, hca] at h2
              · have haceq : a = c := le_antisymm (not_lt.1 hca) (not_lt.1 hac)
                subst haceq
                simp [lexLeChars, lt_self_iff_false] at h2 ⊢
                exact ih bs cs h1 h2

instance : IsTotal String lowerKeyLe :=
  ⟨fun _ _ => lexLeChars_total_pf _ _⟩

instance : IsTrans String lowerKeyLe :=
  ⟨fun _ _ _ => lexLeChars_trans_pf _ _ _⟩

/-- Preservation of the idle-implies-no-file invariant by one controller
step. -/
theorem mstep_inv (s : MState) (e : LEvent)
    (h : s.process = none → s.currentFile = none) :
    (mstep s e).process = none → (mstep s e).currentFile = none := by
  cases e with
  | stop =>
      intro hp2
      by_cases hp : s.process = none
      · simpa [mstep, mstop, hp] using h hp
      · simp [mstep, mstop, hp]
  | play path found spawnOk pid =>
      intro hp2
      cases found with
      | true =>
          cases spawnOk with
          | true => simp [mstep, mplay, mstop] at hp2
          | false => by_cases hp : s.process = none <;> simp [mstep, mplay, mstop, hp]
      | false =>
          by_cases hp : s.process = none
          · simpa [mstep, mplay, mstop, hp] using h hp
          · simp [mstep, mplay, mstop, hp]
  | exitWatch pid =>
      intro hp2
      by_cases hp : s.process = some pid
      · simp [mstep, mwatch, hp]
      · simp only [mstep, mwatch, hp, if_neg] at hp2 ⊢
        exact h hp2

/-- Preservation of the idle-implies-no-file invariant by a run. -/
theorem mrun_inv (tr : List LEvent) :
    ∀ s : MState, (s.process = none → s.currentFile = none) →
      ((mrun s tr).process = none → (mrun s tr).currentFile = none) := by
  induction tr with
  | nil => intro s hs; exact hs
  | cons e tr ih =>
      intro s hs
      have hstep : mrun s (e :: tr) = mrun (mstep s e) tr := rfl
      rw [hstep]
      exact ih (mstep s e) (mstep_inv s e hs)

/-- C10: after every completed controller operation (play, successful or not;
stop; completion of an exit-watch) the invariant holds that an untracked
process implies an empty current-file field: a currently playing path is
never reported while no playback process is tracked. -/
theorem claim10_idle_invariant (tr : List LEvent)
    (h : (mrun initState tr).process = none) :
    (mrun initState tr).currentFile = none :=
  mrun_inv tr initState (fun _ => rfl) h

/-- Witness for C10 on a concrete trace. -/
theorem claim10_idle_invariant_witness :
    (mrun initState [LEvent.play "/v/a.mkv" true true 1, LEvent.stop]).currentFile
      = none :=
  claim10_idle_invariant [LEvent.play "/v/a.mkv" true true 1, LEvent.stop] (by decide)

/-- C9: stop on a controller state with no tracked process is a no-op: the
state (and with it the callback log) is returned unchanged, and no exception
path exists in the embedding. -/
theorem claim9_stop_noop (s : MState) (h : s.process = none) :
    mstep s LEvent.stop = s ∧ (mstep s LEvent.stop).closeLog = s.closeLog := by
  have h1 : mstop s = s := by simp [mstop, h]
  exact ⟨h1, by simp [mstep, h1]⟩

/-- Witness for C9 on the initial state. -/
theorem claim9_stop_noop_witness : mstep initState LEvent.stop = initState :=
  (claim9_stop_noop initState rfl).1

/-- C2 counterexample: with a playback tracked, a play request whose binary
lookup fails returns false but does have side effects: the previously
tracked process and the current-file field are cleared by the initial
stop. -/
theorem claim2_counterexample :
    (mplay c2State "/v/b.mkv" false true 6).2 = false
  ∧ (mplay c2State "/v/b.mkv" false true 6).1 ≠ c2State
  ∧ (mplay c2State "/v/b.mkv" false true 6).1.process = none
  ∧ (mplay c2State "/v/b.mkv" false true 6).1.currentFile = none := by decide

/-- C2 amended: when the binary cannot be located, play returns false,
invokes no callback, and its only side effect is that of the initial stop
(clearing any tracked process and the current file); in particular when no
playback was running the state is exactly unchanged. -/
theorem claim2_play_not_found (s : MState) (path : String) (spawnOk : Bool)
    (pid : Nat) :
    mplay s path false spawnOk pid = (mstop s, false)
  ∧ (mplay s path false spawnOk pid).1.closeLog = s.closeLog
  ∧ (s.process = none → (mplay s path false spawnOk pid).1 = s) := by
  have h1 : mplay s path false spawnOk pid = (mstop s, false) := rfl
  refine ⟨h1, ?_, ?_⟩
  · rw [h1]; by_cases h : s.process = none <;> simp [mstop, h]
  · intro h; rw [h1]; simp [mstop, h]

/-- Witness for C2 (amended) on the idle state. -/
theorem claim2_play_not_found_witness :
    (mplay initState "/v/b.mkv" false true 6).1 = initState :=
  (claim2_play_not_found initState "/v/b.mkv" true 6).2.2 rfl

/-- C7: is_video_file holds exactly when the lowercased extension is one of
the eleven allow-listed ones, and it depends only on the lowercased
extension, hence is insensitive to the letter case of the input
extension. -/
theorem claim7_is_video_file (p : String) :
    (is_video_file p = true ↔
      (pyLower (pySuffix p) = ".mkv" ∨ pyLower (pySuffix p) = ".avi" ∨
       pyLower (pySuffix p) = ".webm" ∨ pyLower (pySuffix p) = ".mp4" ∨
       pyLower (pySuffix p) = ".m4v" ∨ pyLower (pySuffix p) = ".mov" ∨
       pyLower (pySuffix p) = ".wmv" ∨ pyLower (pySuffix p) = ".flv" ∨
       pyLower (pySuffix p) = ".ts" ∨ pyLower (pySuffix p) = ".mts" ∨
       pyLower (pySuffix p) = ".m2ts"))
  ∧ (∀ q : String, pyLower (pySuffix p) = pyLower (pySuffix q) →
      is_video_file p = is_video_file q) := by
  constructor
  · simp [is_video_file, SUPPORTED_EXTENSIONS, List.elem_iff]
  · intro q h; simp [is_video_file, h]

/-- Witness for C7: an uppercase extension is accepted. -/
theorem claim7_is_video_file_witness : is_video_file "/v/movie.MKV" = true :=
  (claim7_is_video_file "/v/movie.MKV").1.mpr (Or.inl (by decide))

/-- C5: listVideoFiles is empty when the directory is not a directory of the
filesystem; on a directory it is a permutation of the regular-file children
whose lowercased extension is allow-listed; it is sorted case-insensitively
by full path; and on a directory holding files b.mkv, A.mp4, c.txt it is
[A.mp4, b.mkv]. -/
theorem claim5_list_video_files (fs : FileSystem) (dir : String) :
    (fs.isDir dir = false → get_video_files_in_directory fs dir = [])
  ∧ (fs.isDir dir = true →
      (get_video_files_in_directory fs dir).Perm
        ((fs.entries dir).filter
          (fun f => fs.isFile f && SUPPORTED_EXTENSIONS.contains (pyLower (pySuffix f)))))
  ∧ List.Sorted lowerKeyLe (get_video_files_in_directory fs dir)
  ∧ get_video_files_in_directory exFS5 "/d" = ["/d/A.mp4", "/d/b.mkv"] := by
  refine ⟨?_, ?_, ?_, by decide⟩
  · intro h; simp [get_video_files_in_directory, h]
  · intro h
    simp only [get_video_files_in_directory, h, if_true]
    exact List.perm_insertionSort _ _
  · by_cases h : fs.isDir dir
    · simp only [get_video_files_in_directory, h, if_true]
      exact List.sorted_insertionSort _ _
    · simp [get_video_files_in_directory, h]

/-- Witness for C5: a missing directory yields the empty sequence. -/
theorem claim5_list_video_files_witness :
    get_video_files_in_directory exFS5 "/missing" = [] :=
  (claim5_list_video_files exFS5 "/missing").1 (by decide)

/-- C1 counterexample: `/d/b.mkv` has been deleted (it does not exist in
`fsC1`) while the recomputed video list of its parent directory `/d` is the
non-empty `[/d/a.mkv]`; yet both navigation functions return nothing instead
of falling back to the first and last entry of that list. -/
theorem claim1_counterexample :
    fsC1.pathExists "/d/b.mkv" = false
  ∧ get_video_files_in_directory fsC1 (pyParent "/d/b.mkv") = ["/d/a.mkv"]
  ∧ get_next_video fsC1 "/d/b.mkv" = none
  ∧ get_previous_video fsC1 "/d/b.mkv" = none := by decide

/-- C1 amended: the fallback acts on the sibling list the code computes,
which is the parent-directory video list only when the current path still
exists and is empty otherwise. If the current path is absent from that list,
nextVideo returns its first entry and previousVideo its last, and both
return nothing exactly when that list is empty; when the current path does
not exist (for example it was deleted) the list is empty, so both return
nothing regardless of the parent directory contents. -/
theorem claim1_absent_fallback (fs : FileSystem) (current : String)
    (h : (get_sibling_videos fs current).contains current = false) :
    get_next_video fs current = (get_sibling_videos fs current).head?
  ∧ get_previous_video fs current = (get_sibling_videos fs current).getLast?
  ∧ (get_next_video fs current = none ↔ get_sibling_videos fs current = [])
  ∧ (get_previous_video fs current = none ↔ get_sibling_videos fs current = [])
  ∧ (fs.pathExists current = false → get_sibling_videos fs current = []) := by
  have hempty : ∀ hp : fs.pathExists current = false,
      get_sibling_videos fs current = [] := by
    intro hp; simp [get_sibling_videos, hp]
  cases hsib : get_sibling_videos fs current with
  | nil =>
      refine ⟨?_, ?_, ?_, ?_, fun _ => rfl⟩ <;>
        simp only [get_next_video, get_previous_video, hsib] <;> simp
  | cons x xs =>
      have h' : ¬current = x ∧ current ∉ xs := by
        rw [hsib] at h
        simpa using h
      refine ⟨?_, ?_, ?_, ?_, ?_⟩
      · simp only [get_next_video, hsib]; simp [h'.1, h'.2]
      · simp only [get_previous_video, hsib]; simp [h'.1, h'.2]
      · simp only [get_next_video, hsib]; simp [h'.1, h'.2]
      · simp only [get_previous_video, hsib]; simp [h'.1, h'.2]
      · intro hp
        rw [hempty hp] at hsib
        simp at hsib

/-- Witness for C1 (amended): current path exists but is not a video, so it
is absent from its sibling list; the fallback returns the first entry. -/
theorem claim1_absent_fallback_witness :
    get_next_video exFS5 "/d/c.txt" = some "/d/A.mp4" :=
  ((claim1_absent_fallback exFS5 "/d/c.txt" (by decide)).1).trans (by decide)

/-- Index arithmetic: the Python signed modulus `(i - 1) % n` agrees with the
natural-number expression `(i + n - 1) % n`. -/
theorem int_prev_index (i n : Nat) (hn : 0 < n) :
    ((((i : Int) - 1) % (n : Int)).toNat) = (i + n - 1) % n := by
  have h1 : ((i + n - 1 : Nat) : Int) = (i : Int) - 1 + n := by omega
  have h2 : ((i : Int) - 1) % (n : Int) = ((i + n - 1 : Nat) : Int) % (n : Int) := by
    rw [h1, Int.add_emod_self]
  rw [h2, ← Int.natCast_mod]
  exact Int.toNat_natCast _

/-- C6: when the current path occurs at index i of its (duplicate-free)
non-empty sibling list of length n, nextVideo yields the entry at index
(i+1) mod n and previousVideo the entry at index (i-1) mod n (written
(i+n-1) mod n over the naturals). -/
theorem claim6_wraparound (fs : FileSystem) (current : String) (i : Nat)
    (hnd : (get_sibling_videos fs current).Nodup)
    (hi : (get_sibling_videos fs current)[i]? = some current) :
    get_next_video fs current
      = (get_sibling_videos fs current)[(i + 1) % (get_sibling_videos fs current).length]?
  ∧ get_previous_video fs current
      = (get_sibling_videos fs current)[(i + (get_sibling_videos fs current).length - 1)
          % (get_sibling_videos fs current).length]? := by
  rw [List.getElem?_eq_some] at hi
  obtain ⟨hlen, hget⟩ := hi
  have hmem : current ∈ get_sibling_videos fs current := by
    have h2 := List.getElem_mem hlen
    rwa [hget] at h2
  have hcont : (get_sibling_videos fs current).contains current = true :=
    List.elem_iff.2 hmem
  have hne : (get_sibling_videos fs current).isEmpty = false := by
    cases hc : get_sibling_videos fs current with
    | nil => rw [hc] at hlen; simp at hlen
    | cons x xs => rfl
  have hidx : (get_sibling_videos fs current).indexOf current = i := by
    have h2 := List.indexOf_getElem hnd i hlen
    rw [hget] at h2
    exact h2
  have hlenpos : 0 < (get_sibling_videos fs current).length :=
    Nat.lt_of_le_of_lt (Nat.zero_le i) hlen
  constructor
  · simp only [get_next_video, hne, hcont, hidx]
    simp
  · simp only [get_previous_video, hne, hcont, hidx]
    simp only [int_prev_index i (get_sibling_videos fs current).length hlenpos]
    simp

/-- Witness for C6: the wraparound examples of the spec. -/
theorem claim6_wraparound_witness :
    get_next_video exFS6 "/d/c.mp4" = some "/d/a.mp4"
  ∧ get_previous_video exFS6 "/d/a.mp4" = some "/d/c.mp4" :=
  ⟨((claim6_wraparound exFS6 "/d/c.mp4" 2 (by decide) (by decide)).1).trans (by decide),
   ((claim6_wraparound exFS6 "/d/a.mp4" 0 (by decide) (by decide)).2).trans (by decide)⟩

/-- C4 counterexample: a clipboard line that is a `file://` URI whose decoded
path does not exist on the filesystem is nevertheless returned: the
existence filter is not applied to entries obtained by decoding a URI. -/
theorem claim4_counterexample :
    getSelectionViaClipboard fsEmpty (some "file:///missing/x.mkv")
      = ["/missing/x.mkv"]
  ∧ fsEmpty.pathExists "/missing/x.mkv" = false := by decide

/-- Membership characterization of the clipboard parsing loop. -/
theorem parseLines_mem (fs : FileSystem) (p : String) :
    ∀ lines : List (List Char),
      p ∈ parseLines fs lines ↔
        ∃ line ∈ lines, pyStrip line ≠ [] ∧
          ((startsWithChars (pyStrip line) "file://".data = true ∧
            p = ⟨unquoteChars ((pyStrip line).drop 7)⟩)
          ∨ (startsWithChars (pyStrip line) "file://".data = false ∧
             fs.pathExists ⟨pyStrip line⟩ = true ∧ p = ⟨pyStrip line⟩)) := by
  intro lines
  induction lines with
  | nil => simp [parseLines]
  | cons line rest ih =>
      simp only [parseLines]
      by_cases h1 : pyStrip line = []
      · simp [h1, ih]
      · by_cases h2 : startsWithChars (pyStrip line) "file://".data = true
        · simp [h1, h2, ih]
        · have h2f : startsWithChars (pyStrip line) "file://".data = false :=
            Bool.not_eq_true _ ▸ Bool.of_not_eq_true h2
          by_cases h3 : fs.pathExists ⟨pyStrip line⟩ = true
          · simp [h1, h2f, h3, ih]
          · have h3f : fs.pathExists ⟨pyStrip line⟩ = false :=
              Bool.not_eq_true _ ▸ Bool.of_not_eq_true h3
            simp [h1, h2f, h3f, ih]

/-- C4 amended: the Variant B probe returns no paths when the clipboard
read failed or was empty; otherwise an entry of the result corresponds to a
non-empty stripped newline-separated line that either is a `file://` URI —
decoded and kept with no existence check — or is itself an existing
filesystem path; the existence filter is applied only to non-URI lines. -/
theorem claim4_clipboard_parse (fs : FileSystem) (clipboard p : String) :
    getSelectionViaClipboard fs none = []
  ∧ getSelectionViaClipboard fs (some "") = []
  ∧ (clipboard ≠ "" →
      (p ∈ getSelectionViaClipboard fs (some clipboard) ↔
        ∃ line ∈ splitLinesChars clipboard.data, pyStrip line ≠ [] ∧
          ((startsWithChars (pyStrip line) "file://".data = true ∧
            p = ⟨unquoteChars ((pyStrip line).drop 7)⟩)
          ∨ (startsWithChars (pyStrip line) "file://".data = false ∧
             fs.pathExists ⟨pyStrip line⟩ = true ∧ p = ⟨pyStrip line⟩)))) := by
  refine ⟨rfl, rfl, ?_⟩
  intro hne
  have hred : getSelectionViaClipboard fs (some clipboard)
      = parseLines fs (splitLinesChars clipboard.data) := by
    simp [getSelectionViaClipboard, hne]
  rw [hred]
  exact parseLines_mem fs p (splitLinesChars clipboard.data)

/-- Witness for C4 (amended): the URI line of the counterexample is a member
of the probe result. -/
theorem claim4_clipboard_parse_witness :
    "/missing/x.mkv" ∈ getSelectionViaClipboard fsEmpty (some "file:///missing/x.mkv") :=
  ((claim4_clipboard_parse fsEmpty "file:///missing/x.mkv" "/missing/x.mkv").2.2
    (by decide)).mpr (by decide)

/-- C8: while the preview-active flag is false, arrow-up, arrow-down and
escape presses emit no signal; while it is true (callbacks registered as the
application does) they emit navigatePrevious, navigateNext and close
respectively; and at the coordinator level a navigation request with no
current file changes nothing. -/
theorem claim8_navigation_gating (s : HMState) (k : PKey) (fs : FileSystem)
    (env : LaunchEnv) (a : AppState) :
    (s.isPreviewActive = false → (k = PKey.up ∨ k = PKey.down ∨ k = PKey.esc) →
      (on_key_press s k).2 = none)
  ∧ (s.isPreviewActive = true →
      (s.hasOnUpArrow = true →
        (on_key_press s PKey.up).2 = some HSignal.navigatePrevious)
    ∧ (s.hasOnDownArrow = true →
        (on_key_press s PKey.down).2 = some HSignal.navigateNext)
    ∧ (s.hasOnEscape = true →
        (on_key_press s PKey.esc).2 = some HSignal.closeSig))
  ∧ (a.currentFile = none →
      navigate_next fs env a = a ∧ navigate_previous fs env a = a) := by
  refine ⟨?_, ?_, ?_⟩
  · intro hp hk
    rcases hk with h | h | h <;> subst h <;>
      simp [on_key_press, isCtrlKey, is_hotkey_pressed, hp]
  · intro hp
    refine ⟨?_, ?_, ?_⟩ <;> intro hcb <;>
      simp [on_key_press, isCtrlKey, is_hotkey_pressed, hp, hcb]
  · intro hc
    constructor <;> simp [navigate_next, navigate_previous, hc]

/-- Witness for C8 on a concrete listener state and coordinator state. -/
theorem claim8_navigation_gating_witness :
    (on_key_press
      { isPreviewActive := true, ctrlPressed := false, hasOnHotkey := true,
        hasOnUpArrow := true, hasOnDownArrow := true, hasOnEscape := true }
      PKey.up).2 = some HSignal.navigatePrevious :=
  ((claim8_navigation_gating
    { isPreviewActive := true, ctrlPressed := false, hasOnHotkey := true,
      hasOnUpArrow := true, hasOnDownArrow := true, hasOnEscape := true }
    PKey.up fsEmpty { mpvFound := true, spawnOk := true, newPid := 1 }
    { currentFile := none, previewActive := false, trayActive := false,
      launcher := initState }).2.1 rfl).1 rfl

/-- The stop operation never touches the callback log. -/
theorem mstop_closeLog (s : MState) : (mstop s).closeLog = s.closeLog := by
  by_cases h : s.process = none <;> simp [mstop, h]

/-- The stop operation always leaves no tracked process. -/
theorem mstop_process (s : MState) : (mstop s).process = none := by
  by_cases h : s.process = none <;> simp [mstop, h]

/-- The play operation never touches the callback log. -/
theorem mplay_closeLog (s : MState) (path : String) (f ok : Bool) (pid : Nat) :
    ((mplay s path f ok pid).1).closeLog = s.closeLog := by
  cases f <;> cases ok <;> simp [mplay, mstop_closeLog]

/-- The process tracked after a play request. -/
theorem mplay_process (s : MState) (path : String) (f ok : Bool) (pid : Nat) :
    ((mplay s path f ok pid).1).process = if f && ok then some pid else none := by
  cases f <;> cases ok <;> simp [mplay, mstop_process]

/-- The count of callback-log entries for a given process identity is stable
over any trace containing no exit-watch completion for that identity. -/
theorem mrun_count_stable (pid : Nat) :
    ∀ (tr : List LEvent) (s : MState), pid ∉ watchPids tr →
      ((mrun s tr).closeLog.count pid) = s.closeLog.count pid := by
  intro tr
  induction tr with
  | nil => intro s _; rfl
  | cons e tr ih =>
      intro s h
      have hrun : mrun s (e :: tr) = mrun (mstep s e) tr := rfl
      rw [hrun]
      cases e with
      | play path f ok q =>
          have hw : pid ∉ watchPids tr := by simpa [watchPids] using h
          rw [ih _ hw]
          simp [mstep, mplay_closeLog]
      | stop =>
          have hw : pid ∉ watchPids tr := by simpa [watchPids] using h
          rw [ih _ hw]
          simp [mstep, mstop_closeLog]
      | exitWatch q =>
          have hq : ¬pid = q ∧ pid ∉ watchPids tr := by simpa [watchPids] using h
          rw [ih _ hq.2]
          by_cases hm : s.process = some q
          · simp [mstep, mwatch, hm, List.count_append, List.count_cons, hq.1]
          · simp [mstep, mwatch, hm]

/-- A process identity can be tracked only if it was tracked at the start of
the trace or introduced by a play event of the trace. -/
theorem mrun_process_origin (pid : Nat) :
    ∀ (tr : List LEvent) (s : MState), pid ∉ playPids tr →
      s.process ≠ some pid → (mrun s tr).process ≠ some pid := by
  intro tr
  induction tr with
  | nil => intro s _ hs; exact hs
  | cons e tr ih =>
      intro s h hs
      have hrun : mrun s (e :: tr) = mrun (mstep s e) tr := rfl
      rw [hrun]
      cases e with
      | play path f ok q =>
          have hq : ¬pid = q ∧ pid ∉ playPids tr := by simpa [playPids] using h
          refine ih _ hq.2 ?_
          have hp := mplay_process s path f ok q
          cases f <;> cases ok <;> simp [mstep, mplay_process] <;>
            exact fun hh => hq.1 hh.symm
      | stop =>
          have hw : pid ∉ playPids tr := by simpa [playPids] using h
          refine ih _ hw ?_
          simp [mstep, mstop_process]
      | exitWatch q =>
          have hw : pid ∉ playPids tr := by simpa [playPids] using h
          refine ih _ hw ?_
          by_cases hm : s.process = some q
          · simp [mstep, mwatch, hm]
          · simpa [mstep, mwatch, hm] using hs

/-- C3: consider any controller run in which the exit-watch of the session
with identity pid completes exactly once (no other exit-watch event carries
pid). The registered onClose callback is invoked for that session exactly
once when the session process is still the tracked one at that moment, and
zero times otherwise; in particular it is never invoked for a session
already ended by an explicit stop, nor for one superseded by a later play
of a different process, provided pid is not replayed afterwards. -/
theorem claim3_onclose_once (pid : Nat) (tr1 tr2 : List LEvent)
    (h1 : pid ∉ watchPids tr1) (h2 : pid ∉ watchPids tr2) :
    ((mrun initState (tr1 ++ LEvent.exitWatch pid :: tr2)).closeLog.count pid
      = if (mrun initState tr1).process = some pid then 1 else 0)
  ∧ (∀ c d, tr1 = c ++ LEvent.stop :: d → pid ∉ playPids d →
      (mrun initState (tr1 ++ LEvent.exitWatch pid :: tr2)).closeLog.count pid = 0)
  ∧ (∀ c d path f ok q, tr1 = c ++ LEvent.play path f ok q :: d → q ≠ pid →
      pid ∉ playPids d →
      (mrun initState (tr1 ++ LEvent.exitWatch pid :: tr2)).closeLog.count pid
        = 0) := by
  have key : (mrun initState (tr1 ++ LEvent.exitWatch pid :: tr2)).closeLog.count pid
      = if (mrun initState tr1).process = some pid then 1 else 0 := by
    have hsplit : mrun initState (tr1 ++ LEvent.exitWatch pid :: tr2)
        = mrun (mwatch (mrun initState tr1) pid) tr2 := by
      simp [mrun, List.foldl_append, mstep]
    rw [hsplit, mrun_count_stable pid tr2 _ h2]
    have hbase : (mrun initState tr1).closeLog.count pid = 0 := by
      rw [mrun_count_stable pid tr1 initState h1]; rfl
    by_cases hm : (mrun initState tr1).process = some pid
    · simp [mwatch, hm, List.count_append, hbase]
    · simp [mwatch, hm, hbase]
  refine ⟨key, ?_, ?_⟩
  · intro c d heq hd
    rw [key]
    have hnot : (mrun initState tr1).process ≠ some pid := by
      subst heq
      have hsplit2 : mrun initState (c ++ LEvent.stop :: d)
          = mrun (mstop (mrun initState c)) d := by
        simp [mrun, List.foldl_append, mstep]
      rw [hsplit2]
      exact mrun_process_origin pid d _ hd (by simp [mstop_process])
    simp [hnot]
  · intro c d path f ok q heq hq hd
    rw [key]
    have hnot : (mrun initState tr1).process ≠ some pid := by
      subst heq
      have hsplit3 : mrun initState (c ++ LEvent.play path f ok q :: d)
          = mrun ((mplay (mrun initState c) path f ok q).1) d := by
        simp [mrun, List.foldl_append, mstep]
      rw [hsplit3]
      refine mrun_process_origin pid d _ hd ?_
      rw [mplay_process]
      cases f <;> cases ok <;> simp <;> exact fun hh => hq hh
    simp [hnot]

/-- Witness for C3: a session that terminates on its own while tracked fires
onClose exactly once. -/
theorem claim3_onclose_once_witness :
    (mrun initState
      [LEvent.play "/v/a.mkv" true true 1, LEvent.exitWatch 1]).closeLog.count 1
      = 1 :=
  ((claim3_onclose_once 1 [LEvent.play "/v/a.mkv" true true 1] []
    (by decide) (by decide)).1).trans (by decide)
